import Mathlib

/-
Verification of the feature-normalization and write-binding engine of the
vi_api_client repository (src/vi_api_client/models.py, api.py), together with
the write-preparation and constraint-validation components that the test suite
and CLI reference.

Python values appearing in feature property maps are embedded as `JValue`;
dictionaries are embedded as association lists with first-match lookup
(`List.lookup`), which coincides with Python dict lookup since Python dict
keys are unique.  Python `float` values are embedded as exact rationals `ℚ`;
string comparison and `str.endswith` are embedded by explicit code-point-wise
functions matching Python semantics.
-/

namespace ViApiClient

/-- A JSON-like dynamic value, the shape of entries of a feature's
`properties` dictionary and of command parameters. -/
inductive JValue where
  | null
  | bool (b : Bool)
  | num (q : ℚ)
  | str (s : String)
  | arr (elems : List JValue)
  | obj (fields : List (String × JValue))

/-- Code-point-wise lexicographic comparison of character lists, the order
Python uses to compare strings. -/
def charListLe : List Char → List Char → Bool
  | [], _ => true
  | _ :: _, [] => false
  | a :: as, b :: bs =>
    if a.toNat < b.toNat then true
    else if a.toNat = b.toNat then charListLe as bs
    else false

/-- Embeds Python string comparison `a <= b` (lexicographic by code point). -/
def strLe (a b : String) : Bool := charListLe a.data b.data

/-- Embeds Python `s.endswith(suffix)`. -/
def strEndsWith (s suffix : String) : Bool := suffix.data.isSuffixOf s.data

/-- Embeds Python `sorted` on a collection of strings (ascending lexical
order); used by `Feature.expand` for deterministic iteration. -/
def sortStrings (l : List String) : List String :=
  List.insertionSort (fun a b => strLe a b = true) l

/-- Embeds `VALUE_PRIORITY_KEYS` of models.py: the priority keys scanned, in
this fixed order, to extract a scalar feature's primary data entry. -/
def VALUE_PRIORITY_KEYS : List String :=
  ["value", "status", "active", "enabled", "strength", "entries",
   "day", "week", "month", "year"]

/-- Embeds the `ignore_keys` set of `Feature.expand` in models.py: the
display-only keys excluded from the data keys. -/
def ignoreKeys : List String := ["unit", "type", "displayValue", "links"]

/-- Constraint specification of one command parameter (`ParamSpec` of the
spec, the entries of a command's `params` dictionary).  The regex `pattern`
and enum `options` constraints are not embedded: no claim under verification
exercises them. -/
structure ParamSpec where
  required : Bool := false
  min : Option ℚ := none
  max : Option ℚ := none
  stepping : Option ℚ := none
  minLength : Option ℕ := none
  maxLength : Option ℕ := none

/-- Embeds the `Command` dataclass of models.py. -/
structure Command where
  name : String
  uri : String
  is_executable : Bool
  params : List (String × ParamSpec)

/-- Embeds `Command.from_api` of models.py: `data.get` with defaults
`uri=""`, `isExecutable=True`, `params` empty; a `none` argument embeds an
absent key of the raw command dictionary. -/
def Command.fromApi (name : String) (uri? : Option String)
    (isExecutable? : Option Bool) (params? : Option (List (String × ParamSpec))) :
    Command :=
  { name := name
    uri := uri?.getD ""
    is_executable := isExecutable?.getD true
    params := params?.getD [] }

/-- Embeds the `Feature` dataclass of models.py. -/
structure Feature where
  name : String
  properties : List (String × JValue)
  is_enabled : Bool
  is_ready : Bool
  commands : List (String × Command)

/-- Embeds `Feature._primary_data` of models.py: `None` on an empty
properties dictionary, else the value of the first `VALUE_PRIORITY_KEYS`
entry present in the properties, else `None`. -/
def findPriorityEntry (props : List (String × JValue)) : List String → Option JValue
  | [] => none
  | k :: ks =>
    match List.lookup k props with
    | some v => some v
    | none => findPriorityEntry props ks

/-- The `_primary_data` property of `Feature` in models.py. -/
def Feature.primaryData (f : Feature) : Option JValue :=
  match f.properties with
  | [] => none
  | _ => findPriorityEntry f.properties VALUE_PRIORITY_KEYS

/-- Embeds the `Feature.value` property of models.py: the primary data entry,
unwrapped to its `"value"` member when it is a dictionary containing one;
`none` embeds Python `None` (no primary data). -/
def Feature.value (f : Feature) : Option JValue :=
  match f.primaryData with
  | none => none
  | some (JValue.obj fields) =>
    match List.lookup "value" fields with
    | some v => some v
    | none => some (JValue.obj fields)
  | some d => some d

/-- Embeds the `Feature.unit` property of models.py: when the primary data
entry is a dictionary, its `"unit"` member (possibly absent); otherwise the
top-level `"unit"` property (possibly absent). -/
def Feature.unit (f : Feature) : Option JValue :=
  match f.primaryData with
  | some (JValue.obj fields) => List.lookup "unit" fields
  | _ => List.lookup "unit" f.properties

/-- The data keys of a feature record: its property keys minus the
display-only `ignoreKeys`, as a duplicate-free list (Python builds a set). -/
def dataKeys (f : Feature) : List String :=
  ((f.properties.map Prod.fst).filter (fun k => !(ignoreKeys.contains k))).dedup

/-- Embeds `Feature._create_sub_feature` of models.py: normalizes the raw
entry to a dictionary with a `"value"` member, preserves a lost `"unit"`, and
derives the sub-feature name with redundant-suffix elimination. -/
def Feature.createSubFeature (f : Feature) (suffix : String) (valObj : JValue) :
    Feature :=
  let base : List (String × JValue) :=
    match valObj with
    | JValue.obj fields =>
      if (List.lookup "value" fields).isSome then fields
      else [("value", JValue.obj fields)]
    | v => [("value", v)]
  let newProps : List (String × JValue) :=
    match valObj with
    | JValue.obj fields =>
      match List.lookup "unit" fields with
      | some u => if (List.lookup "unit" base).isSome then base else base ++ [("unit", u)]
      | none => base
    | _ => base
  let newName : String :=
    if strEndsWith f.name ("." ++ suffix) then f.name else f.name ++ "." ++ suffix
  { name := newName
    properties := newProps
    is_enabled := f.is_enabled
    is_ready := f.is_ready
    commands := [] }

/-- Embeds `Feature.expand` of models.py: zero features on an empty data-key
set, the record itself when the data keys are a subset of the priority set,
else one sub-feature per data key in ascending lexical order. -/
def Feature.expand (f : Feature) : List Feature :=
  let dk := dataKeys f
  if dk = [] then []
  else if dk.all (fun k => VALUE_PRIORITY_KEYS.contains k) then [f]
  else (sortStrings dk).map
    (fun k => f.createSubFeature k ((List.lookup k f.properties).getD JValue.null))

/-- The ways a numeric constraint check can fail. -/
inductive NumericIssue where
  | belowMin
  | aboveMax
  | stepMisaligned

/-- The floating-point tolerance absorbed by the step-alignment check.
Modelled from the spec: the tolerance is *"not numerically specified beyond
the two worked examples"* (spec §9); a small epsilon of `10⁻⁶` is chosen and
documented here. -/
def STEP_EPS : ℚ := 1 / 1000000

/-- Lower-bound check of a numeric parameter value. -/
def checkMin (min? : Option ℚ) (v : ℚ) : Except NumericIssue Unit :=
  match min? with
  | some m => if v < m then .error NumericIssue.belowMin else .ok ()
  | none => .ok ()

/-- Upper-bound check of a numeric parameter value. -/
def checkMax (max? : Option ℚ) (v : ℚ) : Except NumericIssue Unit :=
  match max? with
  | some m => if m < v then .error NumericIssue.aboveMax else .ok ()
  | none => .ok ()

/-- Step-alignment check: `(v - min) / step` must be within `STEP_EPS` of the
nearest integer (an absent `min` contributes base `0`; a zero step is
skipped). -/
def checkStep (min? step? : Option ℚ) (v : ℚ) : Except NumericIssue Unit :=
  match step? with
  | some s =>
    if s = 0 then .ok ()
    else
      let q : ℚ := (v - min?.getD 0) / s
      if |q - (round q : ℚ)| ≤ STEP_EPS then .ok ()
      else .error NumericIssue.stepMisaligned
  | none => .ok ()

/-- Modelled from the spec: `Client._validate_numeric_constraints` of the
write path (absent from src; referenced by tests/test_api.py).  Validates
`min <= v <= max` and the floating-point-tolerant step alignment of
spec §4.4 step 5. -/
def validateNumericConstraints (min? max? step? : Option ℚ) (v : ℚ) :
    Except NumericIssue Unit :=
  match checkMin min? v with
  | .error e => .error e
  | .ok _ =>
    match checkMax max? v with
    | .error e => .error e
    | .ok _ => checkStep min? step? v

/-- The ways parameter-map validation can fail. -/
inductive ValidationIssue where
  | missingRequired (names : List String)
  | numeric (param : String) (issue : NumericIssue)
  | tooShort (param : String)
  | tooLong (param : String)

/-- Minimum-length check of a string parameter value. -/
def checkStrMin (n : String) (minL : Option ℕ) (t : String) :
    Except ValidationIssue Unit :=
  match minL with
  | some m => if t.length < m then .error (ValidationIssue.tooShort n) else .ok ()
  | none => .ok ()

/-- Maximum-length check of a string parameter value. -/
def checkStrMax (n : String) (maxL : Option ℕ) (t : String) :
    Except ValidationIssue Unit :=
  match maxL with
  | some m => if m < t.length then .error (ValidationIssue.tooLong n) else .ok ()
  | none => .ok ()

/-- Constraint check of one supplied parameter value against its
specification: numeric bounds and step for numbers, length bounds for
strings (spec §4.4 step 5). -/
def checkParam (n : String) (s : ParamSpec) (v : JValue) :
    Except ValidationIssue Unit :=
  match v with
  | JValue.num q =>
    match validateNumericConstraints s.min s.max s.stepping q with
    | .error e => .error (ValidationIssue.numeric n e)
    | .ok _ => .ok ()
  | JValue.str t => do
    checkStrMin n s.minLength t
    checkStrMax n s.maxLength t
  | _ => .ok ()

/-- Constraint check of every supplied parameter that has a specification. -/
def checkParamsList (specs : List (String × ParamSpec)) :
    List (String × JValue) → Except ValidationIssue Unit
  | [] => .ok ()
  | (n, v) :: rest =>
    match List.lookup n specs with
    | none => checkParamsList specs rest
    | some s =>
      match checkParam n s v with
      | .error e => .error e
      | .ok _ => checkParamsList specs rest

/-- Modelled from the spec: `validate_command_params` of validation.py
(absent from src; imported by models.py and exercised by tests).  Fails
naming all required parameters missing from the supplied map, then checks
each supplied parameter against its constraint specification. -/
def validateCommandParams (specs : List (String × ParamSpec))
    (params : List (String × JValue)) : Except ValidationIssue Unit :=
  let missing :=
    (specs.filter (fun p => p.2.required && (List.lookup p.1 params).isNone)).map Prod.fst
  if missing = [] then checkParamsList specs params
  else .error (ValidationIssue.missingRequired missing)

/-- The failures of `Client.execute_command` of api.py (each raised as a
`ValueError` there, before any transport dispatch). -/
inductive ExecError where
  | commandNotFound (commandName featureName : String)
  | notExecutable (commandName : String)
  | missingUri (commandName : String)
  | invalidParams (issue : ValidationIssue)

/-- The transport dispatch produced by a successful `execute_command`: the
arguments of the final `connector.post` call. -/
structure PostRequest where
  uri : String
  body : List (String × JValue)

/-- Embeds `Client.execute_command` of api.py (identically
`MockViClient.execute_command` of mock_client.py): command lookup, the
executable and URI guards, parameter validation, then the dispatch.  An
`Except.error` result embeds a raised `ValueError` with nothing dispatched. -/
def executeCommand (feature : Feature) (commandName : String)
    (params : List (String × JValue)) : Except ExecError PostRequest :=
  match List.lookup commandName feature.commands with
  | none => .error (ExecError.commandNotFound commandName feature.name)
  | some cmd =>
    if !cmd.is_executable then .error (ExecError.notExecutable commandName)
    else if cmd.uri = "" then .error (ExecError.missingUri commandName)
    else
      match validateCommandParams cmd.params params with
      | .error e => .error (ExecError.invalidParams e)
      | .ok _ => .ok { uri := cmd.uri, body := params }

/-- Modelled from the spec: the `FeatureControl` dataclass of the
write-binding models (absent from src; constructed throughout the tests):
the binding of a feature to the single command parameter it controls
(spec §3, `Control`).  Constraint fields not needed by any claim are
omitted. -/
structure FeatureControl where
  command_name : String
  param_name : String
  required_params : List String
  parent_feature_name : String
  uri : String
  min : Option ℚ := none
  max : Option ℚ := none
  step : Option ℚ := none

/-- Modelled from the spec: the write-bound `Feature` shape of spec §3
(`name`, current `value`, optional `control`); the `Feature` dataclass in
src carries no `control` field. -/
structure BoundFeature where
  name : String
  value : JValue
  control : Option FeatureControl

/-- The failures of the write-preparation operation (spec §4.4, §7). -/
inductive WriteError where
  | notWritable
  | missingUri
  | missingRequiredParameters (names : List String)

/-- Sibling lookup of the write path: the first feature whose control shares
the given parent record name and binds the given parameter name
(spec §4.4 step 4). -/
def findSibling (siblings : List BoundFeature) (parent paramName : String) :
    Option BoundFeature :=
  siblings.find? (fun f =>
    match f.control with
    | some c => c.parent_feature_name == parent && c.param_name == paramName
    | none => false)

/-- Resolution loop of the write-preparation operation: walks the required
parameter names, skipping names already present in the parameter map,
resolving the rest from siblings, and collecting unresolvable names. -/
def resolveLoop (siblings : List BoundFeature) (ctrl : FeatureControl) :
    List String → List (String × JValue) → List String →
      Except WriteError (List (String × JValue))
  | [], acc, unres =>
    if unres = [] then .ok acc
    else .error (WriteError.missingRequiredParameters unres.reverse)
  | n :: ns, acc, unres =>
    if (List.lookup n acc).isSome then resolveLoop siblings ctrl ns acc unres
    else
      match findSibling siblings ctrl.parent_feature_name n with
      | some sib => resolveLoop siblings ctrl ns (acc ++ [(n, sib.value)]) unres
      | none => resolveLoop siblings ctrl ns acc (n :: unres)

/-- Modelled from the spec: steps 3 and 4 of `prepareWrite` (spec §4.4) —
seed the parameter map with the bound parameter and the new value, then
resolve every other required parameter from sibling features, failing with
`MissingRequiredParameters` naming all unresolved names. -/
def resolveRequiredParams (siblings : List BoundFeature) (ctrl : FeatureControl)
    (newValue : JValue) : Except WriteError (List (String × JValue)) :=
  resolveLoop siblings ctrl ctrl.required_params [(ctrl.param_name, newValue)] []

/-- Modelled from the spec: the write-preparation operation
`prepareWrite(feature, newValue)` of spec §4.4 (absent from src; the CLI and
tests call it through `Client.set_feature`): reject a control-less feature,
reject an empty control URI, then resolve the full parameter map.  The
constraint-validation step 5 is covered separately by
`validateNumericConstraints`. -/
def prepareWrite (siblings : List BoundFeature) (feature : BoundFeature)
    (newValue : JValue) : Except WriteError (List (String × JValue)) :=
  match feature.control with
  | none => .error WriteError.notWritable
  | some ctrl =>
    if ctrl.uri = "" then .error WriteError.missingUri
    else resolveRequiredParams siblings ctrl newValue

/-- Specification-side characterization: the names in a list that are
neither the bound parameter itself nor resolvable from a sibling. -/
def unresolvedFrom (siblings : List BoundFeature) (ctrl : FeatureControl)
    (ns : List String) : List String :=
  ns.filter (fun n =>
    !(n == ctrl.param_name) &&
      (findSibling siblings ctrl.parent_feature_name n).isNone)

/-- Specification-side characterization: the required parameter names that
are neither the bound parameter itself nor resolvable from a sibling. -/
def unresolvedParams (siblings : List BoundFeature) (ctrl : FeatureControl) :
    List String :=
  unresolvedFrom siblings ctrl ctrl.required_params

/-- Specification-side sub-feature name, following the spec's words: the
name is `parentName + "." + key`, unless `parentName` already ends with
`"." + key`, in which case the name is just `parentName`. -/
def specSubFeatureName (parentName key : String) : String :=
  if strEndsWith parentName ("." ++ key) then parentName
  else parentName ++ "." ++ key

/-- Specification-side scalar value extraction, following the spec's words:
scan the priority key list in order and return the first present entry; if
that entry is a map containing `value`, return that member, otherwise the
entry verbatim; `none` when no priority key is present. -/
def specScalarValue (props : List (String × JValue)) : Option JValue :=
  match VALUE_PRIORITY_KEYS.findSome? (fun k => List.lookup k props) with
  | none => none
  | some (JValue.obj fields) =>
    match List.lookup "value" fields with
    | some v => some v
    | none => some (JValue.obj fields)
  | some entry => some entry

/-- Specification-side unit resolution, as amended: the unit of a
dictionary-shaped primary entry is that dictionary's `"unit"` member with no
further fallback; the top-level `"unit"` property applies only when the
primary entry is absent or not a dictionary. -/
def specUnitResolution (props : List (String × JValue)) : Option JValue :=
  match VALUE_PRIORITY_KEYS.findSome? (fun k => List.lookup k props) with
  | some (JValue.obj fields) => List.lookup "unit" fields
  | _ => List.lookup "unit" props

/-- The value carried by one property entry: the `"value"` member of a
dictionary-shaped entry containing one, else the entry verbatim. -/
def specEntryValue (e : JValue) : JValue :=
  match e with
  | JValue.obj fields =>
    match List.lookup "value" fields with
    | some v => v
    | none => JValue.obj fields
  | _ => e

end ViApiClient

namespace ViApiClient

theorem lookup_isSome_iff {β : Type} (k : String) (l : List (String × β)) :
    (List.lookup k l).isSome = true ↔ k ∈ l.map Prod.fst := by
  induction l with
  | nil => simp
  | cons p l ih =>
    rcases p with ⟨a, b⟩
    rcases eq_or_ne k a with h | h
    · subst h
      simp [List.lookup_cons]
    · simp only [List.lookup_cons, beq_false_of_ne h, cond_false, List.map_cons,
        List.mem_cons, ih]
      constructor
      · exact fun hm => Or.inr hm
      · rintro (hm | hm)
        · exact absurd hm h
        · exact hm

theorem lookup_append_left {β : Type} (k : String) (l1 l2 : List (String × β))
    (v : β) (h : List.lookup k l1 = some v) :
    List.lookup k (l1 ++ l2) = some v := by
  induction l1 with
  | nil => simp at h
  | cons p l ih =>
    rcases p with ⟨a, b⟩
    by_cases hk : k = a
    · subst hk
      simp [List.lookup_cons] at h ⊢
      exact h
    · simp only [List.cons_append, List.lookup_cons, beq_false_of_ne hk,
        cond_false] at h ⊢
      exact ih h

theorem lookup_append_right {β : Type} (k : String) (l1 l2 : List (String × β))
    (h : List.lookup k l1 = none) :
    List.lookup k (l1 ++ l2) = List.lookup k l2 := by
  induction l1 with
  | nil => simp
  | cons p l ih =>
    rcases p with ⟨a, b⟩
    by_cases hk : k = a
    · subst hk
      simp [List.lookup_cons] at h
    · simp only [List.cons_append, List.lookup_cons, beq_false_of_ne hk,
        cond_false] at h ⊢
      exact ih h

theorem findPriorityEntry_nil (ks : List String) :
    findPriorityEntry [] ks = none := by
  induction ks with
  | nil => rfl
  | cons k ks ih => simp [findPriorityEntry, List.lookup, ih]

theorem findPriorityEntry_eq_findSome (props : List (String × JValue))
    (ks : List String) :
    findPriorityEntry props ks = ks.findSome? (fun k => List.lookup k props) := by
  induction ks with
  | nil => rfl
  | cons k ks ih =>
    simp only [findPriorityEntry, List.findSome?]
    cases List.lookup k props with
    | none => simpa using ih
    | some v => rfl

theorem primaryData_eq (f : Feature) :
    f.primaryData = findPriorityEntry f.properties VALUE_PRIORITY_KEYS := by
  unfold Feature.primaryData
  cases h : f.properties with
  | nil => rw [findPriorityEntry_nil]
  | cons p l => rfl

end ViApiClient

namespace ViApiClient

theorem charListLe_total (as bs : List Char) :
    charListLe as bs = true ∨ charListLe bs as = true := by
  induction as generalizing bs with
  | nil => left; rfl
  | cons a as ih =>
    cases bs with
    | nil => right; rfl
    | cons b bs =>
      by_cases h1 : a.toNat < b.toNat
      · left; simp [charListLe, h1]
      · by_cases h2 : a.toNat = b.toNat
        · have hba : ¬ b.toNat < a.toNat := by omega
          rcases ih bs with h | h
          · left; simp [charListLe, h1, h2, h]
          · right; simp [charListLe, hba, h2.symm, h]
        · right
          have hb : b.toNat < a.toNat := by omega
          simp [charListLe, hb]

theorem charListLe_trans {as bs cs : List Char}
    (h1 : charListLe as bs = true) (h2 : charListLe bs cs = true) :
    charListLe as cs = true := by
  induction as generalizing bs cs with
  | nil => rfl
  | cons a as ih =>
    cases bs with
    | nil => simp [charListLe] at h1
    | cons b bs =>
      cases cs with
      | nil => simp [charListLe] at h2
      | cons c cs =>
        by_cases hab : a.toNat < b.toNat
        · by_cases hbc : b.toNat < c.toNat
          · have hac : a.toNat < c.toNat := by omega
            simp [charListLe, hac]
          · by_cases hbc2 : b.toNat = c.toNat
            · have hac : a.toNat < c.toNat := by omega
              simp [charListLe, hac]
            · simp [charListLe, hbc, hbc2] at h2
        · by_cases hab2 : a.toNat = b.toNat
          · simp only [charListLe, if_neg hab, if_pos hab2] at h1
            by_cases hbc : b.toNat < c.toNat
            · have hac : a.toNat < c.toNat := by omega
              simp [charListLe, hac]
            · by_cases hbc2 : b.toNat = c.toNat
              · simp only [charListLe, if_neg hbc, if_pos hbc2] at h2
                have hac2 : ¬ a.toNat < c.toNat := by omega
                have hac : a.toNat = c.toNat := by omega
                simp only [charListLe, if_neg hac2, if_pos hac]
                exact ih h1 h2
              · simp [charListLe, hbc, hbc2] at h2
          · simp [charListLe, hab, hab2] at h1

instance : IsTotal String (fun a b => strLe a b = true) :=
  ⟨fun a b => charListLe_total a.data b.data⟩

instance : IsTrans String (fun a b => strLe a b = true) :=
  ⟨fun _ _ _ h1 h2 => charListLe_trans h1 h2⟩

theorem sortStrings_sorted (l : List String) :
    List.Sorted (fun a b => strLe a b = true) (sortStrings l) :=
  List.sorted_insertionSort _ l

theorem sortStrings_perm (l : List String) :
    List.Perm (sortStrings l) l :=
  List.perm_insertionSort _ l

theorem sortStrings_mem (k : String) (l : List String) :
    k ∈ sortStrings l ↔ k ∈ l :=
  (sortStrings_perm l).mem_iff

theorem sortStrings_length (l : List String) :
    (sortStrings l).length = l.length :=
  (sortStrings_perm l).length_eq

theorem sortStrings_nodup (l : List String) (h : l.Nodup) :
    (sortStrings l).Nodup :=
  (sortStrings_perm l).symm.nodup h

theorem dataKeys_nodup (f : Feature) : (dataKeys f).Nodup :=
  List.nodup_dedup _

theorem mem_dataKeys (f : Feature) (k : String) :
    k ∈ dataKeys f ↔ (List.lookup k f.properties).isSome = true ∧ k ∉ ignoreKeys := by
  simp only [dataKeys, List.mem_dedup, List.mem_filter, Bool.not_eq_eq_eq_not,
    Bool.not_true, lookup_isSome_iff]
  constructor
  · rintro ⟨hm, hc⟩
    refine ⟨hm, fun hk => ?_⟩
    rw [List.contains_eq_any_beq] at hc
    simp [List.any_eq_true] at hc
    exact hc k hk rfl
  · rintro ⟨hm, hk⟩
    refine ⟨hm, ?_⟩
    rw [List.contains_eq_any_beq]
    simp [List.any_eq_true]
    intro x hx hxk
    exact hk (hxk ▸ hx)

end ViApiClient

namespace ViApiClient

theorem string_contains_iff (l : List String) (k : String) :
    l.contains k = true ↔ k ∈ l := by
  rw [List.contains_eq_any_beq]
  simp [List.any_eq_true, beq_iff_eq]

theorem expand_structural (f : Feature) (h : dataKeys f = []) :
    f.expand = [] := by
  simp only [Feature.expand, h, if_pos]

theorem expand_scalar (f : Feature) (h1 : dataKeys f ≠ [])
    (h2 : ∀ k ∈ dataKeys f, k ∈ VALUE_PRIORITY_KEYS) :
    f.expand = [f] := by
  have hall : ((dataKeys f).all fun k => VALUE_PRIORITY_KEYS.contains k) = true := by
    rw [List.all_eq_true]
    intro k hk
    rw [string_contains_iff]
    exact h2 k hk
  simp only [Feature.expand, if_neg h1, hall, if_pos]

theorem expand_composite (f : Feature) (h1 : dataKeys f ≠ [])
    (h2 : ¬ ∀ k ∈ dataKeys f, k ∈ VALUE_PRIORITY_KEYS) :
    f.expand = (sortStrings (dataKeys f)).map
      (fun k => f.createSubFeature k ((List.lookup k f.properties).getD JValue.null)) := by
  have hall : ¬ (((dataKeys f).all fun k => VALUE_PRIORITY_KEYS.contains k) = true) := by
    intro hall
    apply h2
    intro k hk
    have := List.all_eq_true.mp hall k hk
    rwa [string_contains_iff] at this
  simp only [Feature.expand, if_neg h1, if_neg hall]

/-- C1: every raw feature record whose data keys (property keys minus the
display-only keys) are non-empty and a subset of the priority set expands to
exactly one Feature, named identically to the record (indeed, to the record
itself). -/
theorem c1_scalar_expansion (f : Feature) (h1 : dataKeys f ≠ [])
    (h2 : ∀ k ∈ dataKeys f, k ∈ VALUE_PRIORITY_KEYS) :
    f.expand = [f] ∧ f.expand.length = 1 ∧ f.expand.map Feature.name = [f.name] := by
  have h := expand_scalar f h1 h2
  refine ⟨h, ?_, ?_⟩ <;> rw [h] <;> rfl

/-- C1 witness: a concrete scalar record (`value` and display-only `unit`
keys) expands to itself alone. -/
theorem c1_scalar_expansion_witness :
    dataKeys ⟨"heating.dhw", [("value", JValue.num 50), ("unit", JValue.str "celsius")], true, true, []⟩ ≠ [] ∧
    (Feature.expand ⟨"heating.dhw", [("value", JValue.num 50), ("unit", JValue.str "celsius")], true, true, []⟩
      = [⟨"heating.dhw", [("value", JValue.num 50), ("unit", JValue.str "celsius")], true, true, []⟩]) :=
  ⟨by decide,
    (c1_scalar_expansion
      ⟨"heating.dhw", [("value", JValue.num 50), ("unit", JValue.str "celsius")], true, true, []⟩
      (by decide) (by decide)).1⟩

/-- C6: for every feature, the extracted value agrees with the
specification-side extraction: scan the priority keys in their fixed order,
take the first present entry, unwrap a dictionary-shaped entry to its
`"value"` member, return anything else verbatim, and yield `none` when the
properties hold no priority key (in particular when they are empty). -/
theorem c6_scalar_value_extraction (f : Feature) :
    f.value = specScalarValue f.properties := by
  unfold Feature.value specScalarValue
  rw [primaryData_eq, findPriorityEntry_eq_findSome]

end ViApiClient

namespace ViApiClient

/-- C7 counterexample: a record whose primary entry is a dictionary without
a `"unit"` member, next to a top-level `"unit"` property.  The claim says
the unit then equals the top-level unit (`"celsius"`); the code returns
`None` instead — the fallback is only taken when the primary entry is not a
dictionary. -/
theorem c7_counterexample :
    (Feature.primaryData ⟨"f", [("value", JValue.obj [("value", JValue.num 10)]), ("unit", JValue.str "celsius")], true, true, []⟩
      = some (JValue.obj [("value", JValue.num 10)])) ∧
    List.lookup "unit" [("value", JValue.num 10)] = none ∧
    (List.lookup "unit" (Feature.properties ⟨"f", [("value", JValue.obj [("value", JValue.num 10)]), ("unit", JValue.str "celsius")], true, true, []⟩)
      = some (JValue.str "celsius")) ∧
    (Feature.unit ⟨"f", [("value", JValue.obj [("value", JValue.num 10)]), ("unit", JValue.str "celsius")], true, true, []⟩
      = none) ∧
    (Feature.unit ⟨"f", [("value", JValue.obj [("value", JValue.num 10)]), ("unit", JValue.str "celsius")], true, true, []⟩
      ≠ some (JValue.str "celsius")) :=
  ⟨rfl, rfl, rfl, rfl, fun h => Option.noConfusion h⟩

/-- C7 as amended: for every feature, the unit agrees with the amended
resolution — when the primary entry is a dictionary, the unit is that
dictionary's `"unit"` member with no further fallback (so `none` when
absent); the top-level `"unit"` property applies only when there is no
primary entry or it is not a dictionary. -/
theorem c7_unit_resolution_amended (f : Feature) :
    f.unit = specUnitResolution f.properties := by
  unfold Feature.unit specUnitResolution
  rw [primaryData_eq, findPriorityEntry_eq_findSome]

/-- C8 counterexample: a record with a boolean `active` and a weekday-map
`entries` classifies as scalar and stays unexpanded, but its value is the
`active` boolean (`active` precedes `entries` in the priority order), not
the schedule map the claim asserts. -/
theorem c8_counterexample :
    (Feature.expand ⟨"heating.circuits.0.heating.schedule", [("active", JValue.bool true), ("entries", JValue.obj [("mon", JValue.arr []), ("tue", JValue.arr []), ("wed", JValue.arr [])])], true, true, []⟩
      = [⟨"heating.circuits.0.heating.schedule", [("active", JValue.bool true), ("entries", JValue.obj [("mon", JValue.arr []), ("tue", JValue.arr []), ("wed", JValue.arr [])])], true, true, []⟩]) ∧
    (Feature.value ⟨"heating.circuits.0.heating.schedule", [("active", JValue.bool true), ("entries", JValue.obj [("mon", JValue.arr []), ("tue", JValue.arr []), ("wed", JValue.arr [])])], true, true, []⟩
      = some (JValue.bool true)) ∧
    (Feature.value ⟨"heating.circuits.0.heating.schedule", [("active", JValue.bool true), ("entries", JValue.obj [("mon", JValue.arr []), ("tue", JValue.arr []), ("wed", JValue.arr [])])], true, true, []⟩
      ≠ some (JValue.obj [("mon", JValue.arr []), ("tue", JValue.arr []), ("wed", JValue.arr [])])) :=
  ⟨rfl, rfl, fun h => JValue.noConfusion (Option.some.inj h)⟩

/-- C8 as amended: a record whose properties contain `active` and `entries`,
whose data keys all lie in the priority set, and which carries neither of
the higher-priority keys `value` and `status`, classifies as scalar — it
yields exactly one Feature (itself, so the schedule map under `entries` is
kept intact and never expanded into per-day features) — and that Feature's
value is the value of the `active` entry, since `active` precedes `entries`
in the priority order. -/
theorem c8_schedule_scalar_amended (f : Feature) (a : JValue)
    (hact : List.lookup "active" f.properties = some a)
    (_hent : (List.lookup "entries" f.properties).isSome = true)
    (hsub : ∀ k ∈ dataKeys f, k ∈ VALUE_PRIORITY_KEYS)
    (hval : List.lookup "value" f.properties = none)
    (hstat : List.lookup "status" f.properties = none) :
    f.expand = [f] ∧ f.value = some (specEntryValue a) := by
  have hmem : "active" ∈ dataKeys f := by
    rw [mem_dataKeys]
    refine ⟨by rw [hact]; rfl, by decide⟩
  have hne : dataKeys f ≠ [] := List.ne_nil_of_mem hmem
  refine ⟨expand_scalar f hne hsub, ?_⟩
  have hprim : f.primaryData = some a := by
    rw [primaryData_eq]
    simp only [VALUE_PRIORITY_KEYS, findPriorityEntry, hval, hstat, hact]
  unfold Feature.value
  rw [hprim]
  unfold specEntryValue
  cases a with
  | obj fields =>
    cases hlv : List.lookup "value" fields with
    | none => simp [hlv]
    | some v => simp [hlv]
  | null => rfl
  | bool b => rfl
  | num q => rfl
  | str s => rfl
  | arr elems => rfl

/-- C8 witness: the amended statement at the concrete schedule record of the
counterexample — one Feature, value `true` (the `active` entry). -/
theorem c8_schedule_scalar_amended_witness :
    (Feature.expand ⟨"heating.circuits.0.heating.schedule", [("active", JValue.bool true), ("entries", JValue.obj [("mon", JValue.arr []), ("tue", JValue.arr []), ("wed", JValue.arr [])])], true, true, []⟩
      = [⟨"heating.circuits.0.heating.schedule", [("active", JValue.bool true), ("entries", JValue.obj [("mon", JValue.arr []), ("tue", JValue.arr []), ("wed", JValue.arr [])])], true, true, []⟩]) ∧
    (Feature.value ⟨"heating.circuits.0.heating.schedule", [("active", JValue.bool true), ("entries", JValue.obj [("mon", JValue.arr []), ("tue", JValue.arr []), ("wed", JValue.arr [])])], true, true, []⟩
      = some (specEntryValue (JValue.bool true))) :=
  c8_schedule_scalar_amended
    ⟨"heating.circuits.0.heating.schedule", [("active", JValue.bool true), ("entries", JValue.obj [("mon", JValue.arr []), ("tue", JValue.arr []), ("wed", JValue.arr [])])], true, true, []⟩
    (JValue.bool true) rfl rfl (by decide) rfl rfl

end ViApiClient

namespace ViApiClient

theorem createSubFeature_name (f : Feature) (k : String) (v : JValue) :
    (f.createSubFeature k v).name = specSubFeatureName f.name k := rfl

/-- C2: every raw feature record whose data keys are non-empty and not a
subset of the priority set expands to exactly one Feature per data key: the
output has one entry per distinct data key, its names follow the
specification-side naming (`parentName + "." + key`, or just `parentName`
when that already ends with `"." + key`), the keys are taken in ascending
lexical order, and the data keys are exactly the property keys outside the
display-only set. -/
theorem c2_composite_expansion (f : Feature)
    (h1 : dataKeys f ≠ [])
    (h2 : ¬ ∀ k ∈ dataKeys f, k ∈ VALUE_PRIORITY_KEYS) :
    f.expand.length = (dataKeys f).length ∧
    f.expand.map Feature.name
      = (sortStrings (dataKeys f)).map (specSubFeatureName f.name) ∧
    List.Sorted (fun a b => strLe a b = true) (sortStrings (dataKeys f)) ∧
    (∀ k, k ∈ sortStrings (dataKeys f)
      ↔ (List.lookup k f.properties).isSome = true ∧ k ∉ ignoreKeys) := by
  have hx := expand_composite f h1 h2
  refine ⟨?_, ?_, sortStrings_sorted _, ?_⟩
  · rw [hx, List.length_map, sortStrings_length]
  · rw [hx, List.map_map]
    exact List.map_congr_left (fun k _ => rfl)
  · intro k
    rw [sortStrings_mem, mem_dataKeys]

/-- C2 witness: the concrete composite record `heating.curve` with `slope`
and `shift` yields two sub-features in ascending key order with dotted
names. -/
theorem c2_composite_expansion_witness :
    ((Feature.expand ⟨"heating.curve", [("slope", JValue.obj [("value", JValue.num 1)]), ("shift", JValue.obj [("value", JValue.num 0)])], true, true, []⟩).map Feature.name
      = ["heating.curve.shift", "heating.curve.slope"]) ∧
    (Feature.expand ⟨"heating.curve", [("slope", JValue.obj [("value", JValue.num 1)]), ("shift", JValue.obj [("value", JValue.num 0)])], true, true, []⟩).length = 2 := by
  have h := c2_composite_expansion
    ⟨"heating.curve", [("slope", JValue.obj [("value", JValue.num 1)]), ("shift", JValue.obj [("value", JValue.num 0)])], true, true, []⟩
    (by decide) (by decide)
  refine ⟨?_, ?_⟩
  · rw [h.2.1]; rfl
  · rw [h.1]; rfl

end ViApiClient

namespace ViApiClient

theorem string_data_inj {a b : String} (h : a.data = b.data) : a = b := by
  cases a; cases b; simp_all

/-- C9 counterexample: the record named `x.a.b` with data keys `b` and `a.b`
(both dot-suffixes of the parent name) expands to two sub-features that both
receive the name `x.a.b`, so the produced names are not pairwise
distinct. -/
theorem c9_counterexample :
    ((Feature.expand ⟨"x.a.b", [("b", JValue.num 1), ("a.b", JValue.num 2)], true, true, []⟩).map Feature.name
      = ["x.a.b", "x.a.b"]) ∧
    ¬ ((Feature.expand ⟨"x.a.b", [("b", JValue.num 1), ("a.b", JValue.num 2)], true, true, []⟩).map Feature.name).Nodup :=
  ⟨rfl, by decide⟩

/-- C9 as amended: the names of the Features produced by expanding a raw
record are pairwise distinct provided at most one data key is a dot-suffix
of the record name (in particular whenever no two distinct data keys `k1`,
`k2` both have the record name ending in `"." + k1` and `"." + k2`). -/
theorem c9_distinct_names_amended (f : Feature)
    (h : ∀ k1 ∈ dataKeys f, ∀ k2 ∈ dataKeys f,
      strEndsWith f.name ("." ++ k1) = true →
        strEndsWith f.name ("." ++ k2) = true → k1 = k2) :
    (f.expand.map Feature.name).Nodup := by
  by_cases h0 : dataKeys f = []
  · simp [expand_structural f h0]
  · by_cases hsub : ∀ k ∈ dataKeys f, k ∈ VALUE_PRIORITY_KEYS
    · simp [expand_scalar f h0 hsub]
    · rw [expand_composite f h0 hsub, List.map_map]
      have hmap : (sortStrings (dataKeys f)).map
          (Feature.name ∘ fun k =>
            f.createSubFeature k ((List.lookup k f.properties).getD JValue.null))
          = (sortStrings (dataKeys f)).map (specSubFeatureName f.name) :=
        List.map_congr_left (fun k _ => rfl)
      rw [hmap]
      apply List.Nodup.map_on
      · intro k1 hk1 k2 hk2 heq
        have hk1m : k1 ∈ dataKeys f := (sortStrings_mem _ _).mp hk1
        have hk2m : k2 ∈ dataKeys f := (sortStrings_mem _ _).mp hk2
        have hdot : ("." : String).length = 1 := rfl
        unfold specSubFeatureName at heq
        by_cases e1 : strEndsWith f.name ("." ++ k1) = true
        · by_cases e2 : strEndsWith f.name ("." ++ k2) = true
          · exact h k1 hk1m k2 hk2m e1 e2
          · rw [if_pos e1, if_neg e2] at heq
            have hlen := congrArg String.length heq
            rw [String.length_append, String.length_append, hdot] at hlen
            omega
        · by_cases e2 : strEndsWith f.name ("." ++ k2) = true
          · rw [if_neg e1, if_pos e2] at heq
            have hlen := congrArg String.length heq
            rw [String.length_append, String.length_append, hdot] at hlen
            omega
          · rw [if_neg e1, if_neg e2] at heq
            have hd := congrArg String.data heq
            rw [String.data_append, String.data_append,
              String.data_append, String.data_append] at hd
            exact string_data_inj (List.append_cancel_left hd)
      · exact sortStrings_nodup _ (dataKeys_nodup f)

/-- C9 witness: the amended distinctness at a concrete composite record
whose keys are not dot-suffixes of the parent name. -/
theorem c9_distinct_names_amended_witness :
    (∀ k1 ∈ dataKeys ⟨"heating.curve", [("slope", JValue.num 1), ("shift", JValue.num 0)], true, true, []⟩,
      ∀ k2 ∈ dataKeys ⟨"heating.curve", [("slope", JValue.num 1), ("shift", JValue.num 0)], true, true, []⟩,
        strEndsWith "heating.curve" ("." ++ k1) = true →
          strEndsWith "heating.curve" ("." ++ k2) = true → k1 = k2) ∧
    ((Feature.expand ⟨"heating.curve", [("slope", JValue.num 1), ("shift", JValue.num 0)], true, true, []⟩).map Feature.name).Nodup :=
  ⟨by decide,
    c9_distinct_names_amended
      ⟨"heating.curve", [("slope", JValue.num 1), ("shift", JValue.num 0)], true, true, []⟩
      (by decide)⟩

end ViApiClient

namespace ViApiClient

/-- C5: the write operation fails with a command-not-found error when the
named command is absent, with a not-executable error when the command's
`isExecutable` is false, and with a missing-URI error when its URI is empty
— and in each failure case nothing is dispatched to the transport (the
result carries no `PostRequest`). -/
theorem c5_execute_command_guards (f : Feature) (c : String)
    (p : List (String × JValue)) :
    (List.lookup c f.commands = none →
      executeCommand f c p = Except.error (ExecError.commandNotFound c f.name) ∧
      (executeCommand f c p).toOption = none) ∧
    (∀ cmd, List.lookup c f.commands = some cmd → cmd.is_executable = false →
      executeCommand f c p = Except.error (ExecError.notExecutable c) ∧
      (executeCommand f c p).toOption = none) ∧
    (∀ cmd, List.lookup c f.commands = some cmd → cmd.is_executable = true →
      cmd.uri = "" →
      executeCommand f c p = Except.error (ExecError.missingUri c) ∧
      (executeCommand f c p).toOption = none) := by
  refine ⟨fun h => ?_, fun cmd hc he => ?_, fun cmd hc he hu => ?_⟩
  · unfold executeCommand
    rw [h]
    exact ⟨rfl, rfl⟩
  · unfold executeCommand
    rw [hc]
    simp [he, Except.toOption]
  · unfold executeCommand
    rw [hc]
    simp [he, hu, Except.toOption]

/-- C5 witness: the three guard failures at concrete features — a feature
without the command, one with a disabled command, one with a URI-less
command. -/
theorem c5_execute_command_guards_witness :
    executeCommand ⟨"f", [], true, true, []⟩ "setMode" []
      = Except.error (ExecError.commandNotFound "setMode" "f") ∧
    executeCommand ⟨"f", [], true, true, [("setMode", ⟨"setMode", "https://x", false, []⟩)]⟩ "setMode" []
      = Except.error (ExecError.notExecutable "setMode") ∧
    executeCommand ⟨"f", [], true, true, [("setMode", ⟨"setMode", "", true, []⟩)]⟩ "setMode" []
      = Except.error (ExecError.missingUri "setMode") :=
  ⟨((c5_execute_command_guards ⟨"f", [], true, true, []⟩ "setMode" []).1 rfl).1,
    ((c5_execute_command_guards ⟨"f", [], true, true, [("setMode", ⟨"setMode", "https://x", false, []⟩)]⟩ "setMode" []).2.1
      ⟨"setMode", "https://x", false, []⟩ rfl rfl).1,
    ((c5_execute_command_guards ⟨"f", [], true, true, [("setMode", ⟨"setMode", "", true, []⟩)]⟩ "setMode" []).2.2
      ⟨"setMode", "", true, []⟩ rfl rfl rfl).1⟩

/-- C10: a command parsed with an absent `isExecutable` key defaults to
executable, so the write operation never rejects it as not executable and
proceeds directly to the URI and parameter-validation checks. -/
theorem c10_default_executable (n : String) (uri? : Option String)
    (params? : Option (List (String × ParamSpec))) (f : Feature) (c : String)
    (p : List (String × JValue))
    (hc : List.lookup c f.commands = some (Command.fromApi n uri? none params?)) :
    (Command.fromApi n uri? none params?).is_executable = true ∧
    executeCommand f c p =
      (if (Command.fromApi n uri? none params?).uri = "" then
        Except.error (ExecError.missingUri c)
      else
        match validateCommandParams (Command.fromApi n uri? none params?).params p with
        | Except.error e => Except.error (ExecError.invalidParams e)
        | Except.ok _ =>
          Except.ok ⟨(Command.fromApi n uri? none params?).uri, p⟩) ∧
    (∀ s, executeCommand f c p ≠ Except.error (ExecError.notExecutable s)) := by
  have h2 : executeCommand f c p =
      (if (Command.fromApi n uri? none params?).uri = "" then
        Except.error (ExecError.missingUri c)
      else
        match validateCommandParams (Command.fromApi n uri? none params?).params p with
        | Except.error e => Except.error (ExecError.invalidParams e)
        | Except.ok _ =>
          Except.ok ⟨(Command.fromApi n uri? none params?).uri, p⟩) := by
    unfold executeCommand
    rw [hc]
    rfl
  refine ⟨rfl, h2, ?_⟩
  intro s heq
  rw [h2] at heq
  by_cases hu : (Command.fromApi n uri? none params?).uri = ""
  · rw [if_pos hu] at heq
    exact ExecError.noConfusion (Except.error.inj heq)
  · rw [if_neg hu] at heq
    cases hv : validateCommandParams (Command.fromApi n uri? none params?).params p with
    | error e =>
      rw [hv] at heq
      exact ExecError.noConfusion (Except.error.inj heq)
    | ok u =>
      rw [hv] at heq
      exact Except.noConfusion heq

/-- C10 witness: a concrete command record without `isExecutable` parses as
executable and its execution is never rejected as not executable. -/
theorem c10_default_executable_witness :
    (Command.fromApi "setMode" (some "https://x") none none).is_executable = true ∧
    (∀ s, executeCommand ⟨"f", [], true, true, [("setMode", Command.fromApi "setMode" (some "https://x") none none)]⟩ "setMode" []
      ≠ Except.error (ExecError.notExecutable s)) := by
  have h := c10_default_executable "setMode" (some "https://x") none
    ⟨"f", [], true, true, [("setMode", Command.fromApi "setMode" (some "https://x") none none)]⟩
    "setMode" [] rfl
  exact ⟨h.1, h.2.2⟩

end ViApiClient

namespace ViApiClient

theorem validateNumeric_eq (m M s v : ℚ) :
    validateNumericConstraints (some m) (some M) (some s) v =
      (if v < m then Except.error NumericIssue.belowMin
       else if M < v then Except.error NumericIssue.aboveMax
       else if s = 0 then Except.ok ()
       else if |(v - m) / s - (round ((v - m) / s) : ℚ)| ≤ STEP_EPS then Except.ok ()
       else Except.error NumericIssue.stepMisaligned) := by
  unfold validateNumericConstraints checkMin checkMax checkStep
  by_cases h1 : v < m
  · simp [h1]
  · simp only [if_neg h1]
    by_cases h2 : M < v
    · simp [h2]
    · simp only [if_neg h2]
      by_cases h3 : s = 0
      · simp [h3]
      · simp only [if_neg h3]
        rfl

theorem near_int_iff_round (q eps : ℚ) (h1 : eps < 1/2) :
    (∃ n : ℤ, |q - n| ≤ eps) ↔ |q - (round q : ℚ)| ≤ eps := by
  constructor
  · rintro ⟨n, hn⟩
    have h2 := abs_le.mp hn
    have hr : round q = n := by
      rw [round_eq, Int.floor_eq_iff]
      constructor
      · linarith [h2.1]
      · linarith [h2.2]
    rw [hr]
    exact hn
  · intro h
    exact ⟨round q, h⟩

/-- C4: numeric parameter validation accepts `v` iff `min <= v <= max` and
`(v - min) / step` is within the small tolerance `STEP_EPS` of some integer;
concretely, for `min=10, max=30, step=0.5` the values `10.5` and `11.0` pass
and `10.7` fails with a step-alignment error, and for `min=0, max=1,
step=0.1` the value `0.3` passes (the rationals here are exact, so the
binary representation error the tolerance absorbs does not arise, and `0.3`
is aligned). -/
theorem c4_numeric_step_validation :
    (∀ m M s v : ℚ, s ≠ 0 →
      (validateNumericConstraints (some m) (some M) (some s) v = Except.ok () ↔
        m ≤ v ∧ v ≤ M ∧ ∃ n : ℤ, |(v - m) / s - n| ≤ STEP_EPS)) ∧
    validateNumericConstraints (some 10) (some 30) (some (1/2)) (21/2) = Except.ok () ∧
    validateNumericConstraints (some 10) (some 30) (some (1/2)) 11 = Except.ok () ∧
    (validateNumericConstraints (some 10) (some 30) (some (1/2)) (107/10)
      = Except.error NumericIssue.stepMisaligned) ∧
    validateNumericConstraints (some 0) (some 1) (some (1/10)) (3/10) = Except.ok () := by
  refine ⟨?_, ?_, ?_, ?_, ?_⟩
  · intro m M s v hs
    rw [validateNumeric_eq,
      near_int_iff_round ((v - m) / s) STEP_EPS (by norm_num [STEP_EPS])]
    by_cases h1 : v < m
    · simp [h1, not_le.mpr h1]
    · simp only [if_neg h1]
      by_cases h2 : M < v
      · simp [h2, not_le.mpr h2]
      · simp only [if_neg h2, if_neg hs]
        by_cases h4 : |(v - m) / s - (round ((v - m) / s) : ℚ)| ≤ STEP_EPS
        · simp [h4, not_lt.mp h1, not_lt.mp h2]
        · simp [h4]
  · rw [validateNumeric_eq]
    have hq : ((21:ℚ)/2 - 10) / (1/2) = 1 := by norm_num
    rw [hq]
    norm_num [STEP_EPS]
  · rw [validateNumeric_eq]
    have hq : ((11:ℚ) - 10) / (1/2) = 2 := by norm_num
    rw [hq]
    norm_num [STEP_EPS]
  · rw [validateNumeric_eq]
    have hq : ((107:ℚ)/10 - 10) / (1/2) = 7/5 := by norm_num
    rw [hq]
    have hr : round ((7:ℚ)/5) = 1 := by rw [round_eq]; norm_num
    rw [hr]
    have habs : |(7:ℚ)/5 - ((1:ℤ) : ℚ)| = 2/5 := by
      rw [show (7:ℚ)/5 - ((1:ℤ) : ℚ) = 2/5 by norm_num]
      exact abs_of_nonneg (by norm_num)
    rw [habs]
    rw [if_neg (by norm_num), if_neg (by norm_num), if_neg (by norm_num),
      if_neg (by norm_num [STEP_EPS])]
  · rw [validateNumeric_eq]
    have hq : ((3:ℚ)/10 - 0) / (1/10) = 3 := by norm_num
    rw [hq]
    norm_num [STEP_EPS]

/-- C4 witness: the acceptance characterization applied at the concrete
constraint `min=0, max=1, step=0.1` and value `0.3`. -/
theorem c4_numeric_step_validation_witness :
    validateNumericConstraints (some 0) (some 1) (some (1/10)) (3/10) = Except.ok () ↔
      (0:ℚ) ≤ 3/10 ∧ (3:ℚ)/10 ≤ 1 ∧
        ∃ n : ℤ, |((3:ℚ)/10 - 0) / (1/10) - n| ≤ STEP_EPS :=
  c4_numeric_step_validation.1 0 1 (1/10) (3/10) (by norm_num)

end ViApiClient

namespace ViApiClient

theorem resolveLoop_spec (siblings : List BoundFeature) (ctrl : FeatureControl)
    (ns : List String) :
    ∀ (acc : List (String × JValue)) (unres : List String),
    (List.lookup ctrl.param_name acc).isSome = true →
    (∀ k v, List.lookup k acc = some v → k = ctrl.param_name ∨
      ∃ sib, findSibling siblings ctrl.parent_feature_name k = some sib ∧
        v = sib.value) →
    (unres.reverse ++ unresolvedFrom siblings ctrl ns ≠ [] →
      resolveLoop siblings ctrl ns acc unres
        = Except.error (WriteError.missingRequiredParameters
            (unres.reverse ++ unresolvedFrom siblings ctrl ns))) ∧
    (unres.reverse ++ unresolvedFrom siblings ctrl ns = [] →
      ∃ m, resolveLoop siblings ctrl ns acc unres = Except.ok m ∧
        (∀ k v, List.lookup k acc = some v → List.lookup k m = some v) ∧
        (∀ n ∈ ns, n ≠ ctrl.param_name →
          ∃ sib, findSibling siblings ctrl.parent_feature_name n = some sib ∧
            List.lookup n m = some sib.value)) := by
  induction ns with
  | nil =>
    intro acc unres hparam hinv
    simp only [unresolvedFrom, List.filter_nil, List.append_nil]
    constructor
    · intro hne
      have hu : unres ≠ [] := fun h => hne (by rw [h]; rfl)
      simp only [resolveLoop, if_neg hu]
    · intro hnil
      have hu : unres = [] := by
        have := List.reverse_eq_nil_iff.mp hnil
        exact this
      subst hu
      refine ⟨acc, by simp [resolveLoop], fun k v hv => hv, ?_⟩
      intro n hn
      exact absurd hn (List.not_mem_nil n)
  | cons n ns ih =>
    intro acc unres hparam hinv
    cases ho : List.lookup n acc with
    | some v =>
      have hin : (List.lookup n acc).isSome = true := by rw [ho]; rfl
      have hstep : resolveLoop siblings ctrl (n :: ns) acc unres
          = resolveLoop siblings ctrl ns acc unres := by
        simp only [resolveLoop, hin, if_true]
      have hfil : (!(n == ctrl.param_name) &&
          (findSibling siblings ctrl.parent_feature_name n).isNone) = false := by
        rcases hinv n v ho with h | ⟨sib, hsib, _⟩
        · subst h
          simp
        · simp [hsib]
      have hunres : unresolvedFrom siblings ctrl (n :: ns)
          = unresolvedFrom siblings ctrl ns := by
        simp only [unresolvedFrom, List.filter_cons, hfil]
        simp
      obtain ⟨iha, ihb⟩ := ih acc unres hparam hinv
      constructor
      · intro hne
        rw [hstep, hunres]
        rw [hunres] at hne
        exact iha hne
      · intro hnil
        rw [hunres] at hnil
        obtain ⟨m, hm, hext, hres⟩ := ihb hnil
        refine ⟨m, by rw [hstep]; exact hm, hext, ?_⟩
        intro x hx hxp
        rcases List.mem_cons.mp hx with h | h
        · subst h
          rcases hinv x v ho with h | ⟨sib, hsib, hveq⟩
          · exact absurd h hxp
          · exact ⟨sib, hsib, by rw [hveq] at ho; exact hext x sib.value ho⟩
        · exact hres x h hxp
    | none =>
      have hin : ¬ ((List.lookup n acc).isSome = true) := by rw [ho]; simp
      have hnp : n ≠ ctrl.param_name := by
        intro h
        rw [← h, ho] at hparam
        exact Bool.noConfusion hparam
      cases hsib : findSibling siblings ctrl.parent_feature_name n with
      | some sib =>
        have hstep : resolveLoop siblings ctrl (n :: ns) acc unres
            = resolveLoop siblings ctrl ns (acc ++ [(n, sib.value)]) unres := by
          conv_lhs => rw [resolveLoop]
          rw [ho, hsib]
          rfl
        have hfil : (!(n == ctrl.param_name) &&
            (findSibling siblings ctrl.parent_feature_name n).isNone) = false := by
          simp [hsib]
        have hunres : unresolvedFrom siblings ctrl (n :: ns)
            = unresolvedFrom siblings ctrl ns := by
          simp only [unresolvedFrom, List.filter_cons, hfil]
          simp
        have hparam2 : (List.lookup ctrl.param_name (acc ++ [(n, sib.value)])).isSome = true := by
          cases hw : List.lookup ctrl.param_name acc with
          | none =>
            rw [hw] at hparam
            exact Bool.noConfusion hparam
          | some w =>
            rw [lookup_append_left ctrl.param_name acc [(n, sib.value)] w hw]
            rfl
        have hinv2 : ∀ k v, List.lookup k (acc ++ [(n, sib.value)]) = some v →
            k = ctrl.param_name ∨
              ∃ s, findSibling siblings ctrl.parent_feature_name k = some s ∧
                v = s.value := by
          intro k v hv
          cases hk : List.lookup k acc with
          | some w =>
            rw [lookup_append_left k acc [(n, sib.value)] w hk] at hv
            injection hv with hwv
            subst hwv
            exact hinv k _ hk
          | none =>
            rw [lookup_append_right k acc [(n, sib.value)] hk] at hv
            by_cases hkn : k = n
            · subst hkn
              simp [List.lookup_cons] at hv
              subst hv
              exact Or.inr ⟨sib, hsib, rfl⟩
            · simp [List.lookup_cons, beq_false_of_ne hkn] at hv
        obtain ⟨iha, ihb⟩ := ih (acc ++ [(n, sib.value)]) unres hparam2 hinv2
        constructor
        · intro hne
          rw [hstep, hunres]
          rw [hunres] at hne
          exact iha hne
        · intro hnil
          rw [hunres] at hnil
          obtain ⟨m, hm, hext, hres⟩ := ihb hnil
          refine ⟨m, by rw [hstep]; exact hm, ?_, ?_⟩
          · intro k v hv
            exact hext k v (lookup_append_left k acc [(n, sib.value)] v hv)
          · intro x hx hxp
            rcases List.mem_cons.mp hx with h | h
            · subst h
              refine ⟨sib, hsib, ?_⟩
              apply hext
              rw [lookup_append_right x acc [(x, sib.value)] ho]
              simp [List.lookup_cons]
            · exact hres x h hxp
      | none =>
        have hstep : resolveLoop siblings ctrl (n :: ns) acc unres
            = resolveLoop siblings ctrl ns acc (n :: unres) := by
          conv_lhs => rw [resolveLoop]
          rw [ho, hsib]
          rfl
        have hfil : (!(n == ctrl.param_name) &&
            (findSibling siblings ctrl.parent_feature_name n).isNone) = true := by
          simp [hsib, beq_false_of_ne hnp]
        have hunres : unresolvedFrom siblings ctrl (n :: ns)
            = n :: unresolvedFrom siblings ctrl ns := by
          simp only [unresolvedFrom, List.filter_cons, hfil]
          simp
        obtain ⟨iha, ihb⟩ := ih acc (n :: unres) hparam hinv
        have hlist : (n :: unres).reverse ++ unresolvedFrom siblings ctrl ns
            = unres.reverse ++ unresolvedFrom siblings ctrl (n :: ns) := by
          rw [hunres, List.reverse_cons, List.append_assoc]
          rfl
        constructor
        · intro _
          rw [hstep]
          have hne2 : (n :: unres).reverse ++ unresolvedFrom siblings ctrl ns ≠ [] := by
            rw [hlist, hunres]
            simp
          rw [iha hne2, hlist]
        · intro hnil
          exfalso
          rw [hunres] at hnil
          simp at hnil

end ViApiClient

namespace ViApiClient

/-- C3: for a feature bound to a command, write preparation resolves every
required parameter other than the bound one from the sibling feature (same
parent record) whose bound parameter carries that name, defaulting to that
sibling's current value; it fails with `MissingRequiredParameters` naming
exactly the unresolvable names precisely when at least one required name has
neither the supplied value nor a resolving sibling. -/
theorem c3_sibling_parameter_resolution (siblings : List BoundFeature)
    (feature : BoundFeature) (ctrl : FeatureControl) (newValue : JValue)
    (hctrl : feature.control = some ctrl) (huri : ctrl.uri ≠ "") :
    (prepareWrite siblings feature newValue
        = Except.error (WriteError.missingRequiredParameters
            (unresolvedParams siblings ctrl))
      ↔ unresolvedParams siblings ctrl ≠ []) ∧
    (unresolvedParams siblings ctrl = [] →
      ∃ m, prepareWrite siblings feature newValue = Except.ok m ∧
        List.lookup ctrl.param_name m = some newValue ∧
        ∀ n ∈ ctrl.required_params, n ≠ ctrl.param_name →
          ∃ sib, findSibling siblings ctrl.parent_feature_name n = some sib ∧
            List.lookup n m = some sib.value) := by
  have hpw : prepareWrite siblings feature newValue
      = resolveLoop siblings ctrl ctrl.required_params
          [(ctrl.param_name, newValue)] [] := by
    unfold prepareWrite resolveRequiredParams
    rw [hctrl]
    simp only [if_neg huri]
  have hparam0 :
      (List.lookup ctrl.param_name [(ctrl.param_name, newValue)]).isSome = true := by
    simp [List.lookup_cons]
  have hinv0 : ∀ k v, List.lookup k [(ctrl.param_name, newValue)] = some v →
      k = ctrl.param_name ∨
        ∃ sib, findSibling siblings ctrl.parent_feature_name k = some sib ∧
          v = sib.value := by
    intro k v hv
    by_cases hk : k = ctrl.param_name
    · exact Or.inl hk
    · simp [List.lookup_cons, beq_false_of_ne hk] at hv
  obtain ⟨ha, hb⟩ := resolveLoop_spec siblings ctrl ctrl.required_params
    [(ctrl.param_name, newValue)] [] hparam0 hinv0
  rw [List.reverse_nil, List.nil_append] at ha hb
  unfold unresolvedParams
  constructor
  · constructor
    · intro herr hnil
      obtain ⟨m, hm, _, _⟩ := hb hnil
      rw [hpw, hm] at herr
      exact Except.noConfusion herr
    · intro hne
      rw [hpw]
      exact ha hne
  · intro hnil
    obtain ⟨m, hm, hext, hres⟩ := hb hnil
    refine ⟨m, by rw [hpw]; exact hm, ?_, hres⟩
    apply hext
    simp [List.lookup_cons]

/-- C3 witness: the spec's multi-parameter scenario — record `heating.curve`
with command `setCurve` requiring `slope` and `shift`; writing only `slope`
resolves `shift` from the sibling `heating.curve.shift` feature's current
value. -/
theorem c3_sibling_parameter_resolution_witness :
    unresolvedParams
      [⟨"heating.curve.slope", JValue.num (14/10), some ⟨"setCurve", "slope", ["slope", "shift"], "heating.curve", "https://api.vi/commands/setCurve", none, none, none⟩⟩,
       ⟨"heating.curve.shift", JValue.num 5, some ⟨"setCurve", "shift", ["slope", "shift"], "heating.curve", "https://api.vi/commands/setCurve", none, none, none⟩⟩]
      ⟨"setCurve", "slope", ["slope", "shift"], "heating.curve", "https://api.vi/commands/setCurve", none, none, none⟩ = [] ∧
    ∃ m,
      prepareWrite
        [⟨"heating.curve.slope", JValue.num (14/10), some ⟨"setCurve", "slope", ["slope", "shift"], "heating.curve", "https://api.vi/commands/setCurve", none, none, none⟩⟩,
         ⟨"heating.curve.shift", JValue.num 5, some ⟨"setCurve", "shift", ["slope", "shift"], "heating.curve", "https://api.vi/commands/setCurve", none, none, none⟩⟩]
        ⟨"heating.curve.slope", JValue.num (14/10), some ⟨"setCurve", "slope", ["slope", "shift"], "heating.curve", "https://api.vi/commands/setCurve", none, none, none⟩⟩
        (JValue.num 2) = Except.ok m ∧
      List.lookup "slope" m = some (JValue.num 2) ∧
      ∀ n ∈ ["slope", "shift"], n ≠ "slope" →
        ∃ sib,
          findSibling
            [⟨"heating.curve.slope", JValue.num (14/10), some ⟨"setCurve", "slope", ["slope", "shift"], "heating.curve", "https://api.vi/commands/setCurve", none, none, none⟩⟩,
             ⟨"heating.curve.shift", JValue.num 5, some ⟨"setCurve", "shift", ["slope", "shift"], "heating.curve", "https://api.vi/commands/setCurve", none, none, none⟩⟩]
            "heating.curve" n = some sib ∧
          List.lookup n m = some sib.value :=
  ⟨rfl,
    (c3_sibling_parameter_resolution
      [⟨"heating.curve.slope", JValue.num (14/10), some ⟨"setCurve", "slope", ["slope", "shift"], "heating.curve", "https://api.vi/commands/setCurve", none, none, none⟩⟩,
       ⟨"heating.curve.shift", JValue.num 5, some ⟨"setCurve", "shift", ["slope", "shift"], "heating.curve", "https://api.vi/commands/setCurve", none, none, none⟩⟩]
      ⟨"heating.curve.slope", JValue.num (14/10), some ⟨"setCurve", "slope", ["slope", "shift"], "heating.curve", "https://api.vi/commands/setCurve", none, none, none⟩⟩
      ⟨"setCurve", "slope", ["slope", "shift"], "heating.curve", "https://api.vi/commands/setCurve", none, none, none⟩
      (JValue.num 2) rfl (by decide)).2 rfl⟩

end ViApiClient
